import Mathlib

/-!
# timezonecompanion: channel visibility toggle, zone resolution, message gate

A shallow embedding of `timezonecompanion/plugin_bot.go`.

* Go `int64` ids are `Int` (no arithmetic is done on them).
* Go slices are lists; where the source mutates a slice while ranging over it
  (`EnabledInChannels`, lines 141-145) the backing array and the current length
  are tracked separately and an out-of-range slice expression is `none`.
* Go strings are `String`, handled through their list of characters (valid UTF-8);
  the Unicode case tables behind `strings.ToLower` and `strings.EqualFold` are a
  parameter (`CaseTables`).
* The two lookup tables `CountryCodes` and `CCToZones` are Go maps declared
  outside this file; they are parameters, given as association lists in the
  order in which `range` happens to visit them in one call (`SameMaps` relates the
  orders of two calls).
* Clock, date parser, timezone database, storage and the paginated-message
  service are parameters (`World`, `CommandWorld`); a command's result records
  the storage call it issues next to the reply and error it returns.
-/

namespace Timezonecompanion

/-! ## Strings -/

/-- The case tables of Go's package `unicode`, which are not part of the given sources
and are taken as a parameter: the rune mapping `unicode.ToLower`, and the comparison of two
runes made by `strings.EqualFold` (equal, or one reachable from the other by
`unicode.SimpleFold`). Nothing is assumed about them unless a theorem says so. -/
structure CaseTables where
  /-- The mapping `unicode.ToLower`. -/
  lower : Char → Char
  /-- Are the two runes equal under simple case folding. -/
  foldEq : Char → Char → Bool

/-- Go `strings.ToLower` on a valid UTF-8 string: `unicode.ToLower` on every rune. -/
def toLower (T : CaseTables) (s : String) : String := ⟨s.data.map T.lower⟩

/-- The loop of `strings.EqualFold`: the runes are compared pairwise, and both strings must
end together. -/
def equalFoldRunes (T : CaseTables) : List Char → List Char → Bool
  | [], [] => true
  | a :: as, b :: bs => T.foldEq a b && equalFoldRunes T as bs
  | _, _ => false

/-- Go `strings.EqualFold` on valid UTF-8 strings. -/
def equalFold (T : CaseTables) (a b : String) : Bool := equalFoldRunes T a.data b.data

/-- The case tables cut down to ASCII: `A`-`Z` map to `a`-`z`, every other rune is its own
lower case and folds only with itself. -/
def asciiTables : CaseTables :=
  { lower := Char.toLower, foldEq := fun a b => a.toLower == b.toLower }

/-- Is every rune of the string an ASCII character. -/
def IsAscii (s : String) : Bool := s.data.all (fun c => decide (c.toNat < 128))

/-- The tables agree with `unicode.ToLower` and `strings.EqualFold` on ASCII, as Go's do:
an ASCII rune is lower-cased as in ASCII, and two ASCII runes fold together exactly when
they are equal or an upper/lower pair. -/
def AsciiFaithful (T : CaseTables) : Prop :=
  (∀ c : Char, c.toNat < 128 → T.lower c = c.toLower) ∧
    (∀ c d : Char, c.toNat < 128 → d.toNat < 128 →
      T.foldEq c d = (c.toLower == d.toLower))

/-- Does `sub` occur in `l` starting at some position (scan from the left). -/
def hasInfix (sub : List Char) : List Char → Bool
  | [] => sub.isEmpty
  | c :: cs => sub.isPrefixOf (c :: cs) || hasInfix sub cs

/-- Go `strings.Contains(s, substr)`. -/
def contains (s substr : String) : Bool := hasInfix substr.data s.data

/-- Go `strings.ReplaceAll(s, " ", "_")`: every space becomes an underscore. -/
def replaceSpaces (s : String) : String :=
  ⟨s.data.map (fun c => if c = ' ' then '_' else c)⟩

/-! ## Guild configuration and the toggle command -/

/-- The record `models.TimezoneGuildConfig`. -/
structure TimezoneGuildConfig where
  GuildID : Int
  NewChannelsDisabled : Bool
  DisabledInChannels : List Int
  EnabledInChannels : List Int
deriving DecidableEq, Repr

/-- Modelled from the spec: `common.ContainsInt64Slice` (package `common` is not part of
the given sources) is the membership test "channel in the list". -/
def ContainsInt64Slice (l : List Int) (v : Int) : Bool := l.contains v

/-- Modelled from the spec: `common.ContainsStringSlice` (package `common` is not part of
the given sources) is the membership test "code is in the candidate set". -/
def ContainsStringSlice (l : List String) (v : String) : Bool := l.contains v

/-- The condition of line 266 under which `handleMessageCreate` returns early
("disabled in this channel"). -/
def disabledIn (conf : TimezoneGuildConfig) (channel : Int) : Bool :=
  ContainsInt64Slice conf.DisabledInChannels channel ||
    (conf.NewChannelsDisabled && !ContainsInt64Slice conf.EnabledInChannels channel)

/-- The query `isActive(channel)` in the words of the specification:
not in `DisabledInChannels` and not (`NewChannelsDisabled` and not in `EnabledInChannels`). -/
def isActive (conf : TimezoneGuildConfig) (channel : Int) : Bool :=
  !(ContainsInt64Slice conf.DisabledInChannels channel) &&
    !(conf.NewChannelsDisabled && !(ContainsInt64Slice conf.EnabledInChannels channel))

/-- The slice expression `append(s[:i], s[i+1:]...)` for a slice `s` of length `len`
over the backing array `arr`: `s[i+1:]` is out of range when `i + 1 > len`; otherwise the
elements `i+1 .. len-1` move one place down inside the backing array (whose last cells keep
their old content) and the new length is `len - 1`. -/
def removeAt (arr : List Int) (len i : Nat) : Option (List Int × Nat) :=
  if i + 1 ≤ len then
    some (arr.take i ++ (arr.drop (i + 1)).take (len - (i + 1)) ++ arr.drop (len - 1), len - 1)
  else none

/-- The loop of lines 141-145: `for i, v := range conf.EnabledInChannels` visits the indices
of the slice as it was when the loop started (`k` indices are left, the next one is `i`),
reads `v` from the shared backing array and, on a match, replaces the field by
`append(s[:i], s[i+1:]...)` computed from the current field. -/
def removeEnabledLoop (cs : Int) : Nat → Nat → List Int → Nat → Option (List Int × Nat)
  | 0, _, arr, len => some (arr, len)
  | k + 1, i, arr, len =>
    if arr[i]? = some cs then
      match removeAt arr len i with
      | none => none
      | some (arr', len') => removeEnabledLoop cs k (i + 1) arr' len'
    else removeEnabledLoop cs k (i + 1) arr len

/-- Lines 141-145 started on the slice `enabled`: the resulting slice, or `none` when a
slice expression is out of range. -/
def removeEnabled (cs : Int) (enabled : List Int) : Option (List Int) :=
  match removeEnabledLoop cs enabled.length 0 enabled enabled.length with
  | none => none
  | some (arr, len) => some (arr.take len)

/-- The loop of lines 124-136: the index of the first element equal to `cs`, at which the
loop removes the element and breaks. -/
def findDisabled (cs : Int) : List Int → Nat → Option Nat
  | [], _ => none
  | v :: rest, i => if v = cs then some i else findDisabled cs rest (i + 1)

/-- The reply of line 148. -/
def toggledReply (status : String) : String :=
  "Automatic time conversion in this channel toggled `" ++ status ++ "`"

/-- The reply of line 114. -/
def enabledAllReply : String := "Enabled time conversion in all channels."

/-- The reply of line 118. -/
def disabledAllReply : String :=
  "Disabled time conversion in all channels, including newly created channels."

/-- Line 92: is the argument `all` or `*` under `strings.EqualFold`. The letters `a` and
`l` have no case variant outside ASCII and `*` has none at all, so the ASCII tables decide
these two comparisons as Go's tables do, for every argument. -/
def isAll (allStr : String) : Bool :=
  equalFold asciiTables allStr "all" || equalFold asciiTables allStr "*"

/-- Lines 109-149 of the `ToggleTimeConversion` command: the config as mutated and the
reply, for the flag `all` and the invoking channel `cs`; `none` is a run-time failure of a
slice expression. -/
def toggle (all : Bool) (cs : Int) (conf : TimezoneGuildConfig) :
    Option (TimezoneGuildConfig × String) :=
  if all then
    if conf.NewChannelsDisabled then
      some ({ conf with NewChannelsDisabled := false, DisabledInChannels := [] },
        enabledAllReply)
    else
      some ({ conf with NewChannelsDisabled := true, EnabledInChannels := [] },
        disabledAllReply)
  else
    match findDisabled cs conf.DisabledInChannels 0 with
    | some i =>
      match removeAt conf.DisabledInChannels conf.DisabledInChannels.length i with
      | none => none
      | some (arr, len) =>
        some ({ conf with
                DisabledInChannels := arr.take len,
                EnabledInChannels :=
                  if conf.NewChannelsDisabled then conf.EnabledInChannels ++ [cs]
                  else conf.EnabledInChannels },
          toggledReply "on")
    | none =>
      match removeEnabled cs conf.EnabledInChannels with
      | none => none
      | some enabled =>
        some ({ conf with
                DisabledInChannels := conf.DisabledInChannels ++ [cs],
                EnabledInChannels := enabled },
          toggledReply "off")

/-- The guild-wide toggle: the command body run with the argument `allStr`. -/
def toggleWith (allStr : String) (cs : Int) (conf : TimezoneGuildConfig) :
    Option (TimezoneGuildConfig × String) :=
  toggle (isAll allStr) cs conf

/-- The config the command starts from when no record is stored (lines 100-102). -/
def freshConfig (guild : Int) : TimezoneGuildConfig :=
  { GuildID := guild, NewChannelsDisabled := false, DisabledInChannels := [],
    EnabledInChannels := [] }

/-- A sequence of invocations of the command, each with its argument and invoking channel,
every one starting from the config the previous one wrote back. -/
def runToggles : List (String × Int) → TimezoneGuildConfig → Option TimezoneGuildConfig
  | [], conf => some conf
  | (allStr, cs) :: rest, conf =>
    match toggleWith allStr cs conf with
    | none => none
    | some (conf', _) => runToggles rest conf'

/-- The two exception lists share no channel and neither lists a channel twice. -/
def ListsExclusive (conf : TimezoneGuildConfig) : Prop :=
  (∀ c, ¬ (c ∈ conf.DisabledInChannels ∧ c ∈ conf.EnabledInChannels)) ∧
    conf.DisabledInChannels.Nodup ∧ conf.EnabledInChannels.Nodup

/-! ## Zone resolution -/

/-- The two lookup tables read by `FindZone`. Both are Go maps declared elsewhere in the
package; each is given as the list of its entries in the order `range` visits them. -/
structure Directory where
  /-- Entries of `CountryCodes`: country name to 2-letter code. -/
  CountryCodes : List (String × String)
  /-- Entries of `CCToZones`: 2-letter code to the zone ids of that country. -/
  CCToZones : List (String × List String)

/-- Lines 218-223: the codes of the countries whose lower-cased name contains `lowerIn`. -/
def matchingCodes (T : CaseTables) (dir : Directory) (lowerIn : String) : List String :=
  dir.CountryCodes.foldl
    (fun ccs entry => if contains (toLower T entry.1) lowerIn then ccs ++ [entry.2] else ccs) []

/-- Lines 231-243, the body of the loop over `CCToZones` for one entry: what the entry
appends to `matchesZones`. -/
def zonesOfEntry (T : CaseTables) (ccs : List String) (lowerIn inSpaceReplaced : String)
    (entry : String × List String) : List String :=
  if ContainsStringSlice ccs entry.1 || equalFold T entry.1 lowerIn then
    entry.2.foldl (fun acc v => acc ++ [v]) []
  else
    entry.2.foldl
      (fun acc v => if contains (toLower T v) inSpaceReplaced then acc ++ [v] else acc) []

/-- The function `FindZone` (lines 214-247). -/
def FindZone (T : CaseTables) (dir : Directory) (input : String) : List String :=
  let lowerIn := toLower T input
  let inSpaceReplaced := replaceSpaces lowerIn
  let ccs := matchingCodes T dir lowerIn
  dir.CCToZones.foldl
    (fun matchesZones entry =>
      matchesZones ++ zonesOfEntry T ccs lowerIn inSpaceReplaced entry) []

/-- The two directories hold the same two maps; only the order in which `range` visits
the entries may differ, as it does from one call of `FindZone` to the next. -/
def SameMaps (dir dir' : Directory) : Prop :=
  dir.CountryCodes.Perm dir'.CountryCodes ∧ dir.CCToZones.Perm dir'.CCToZones

/-! ## The message handler -/

/-- A `*time.Location`, identified by the zone name it was loaded from. -/
structure Location where
  name : String
deriving DecidableEq, Repr

/-- A `time.Time`: an instant together with the location it is expressed in. -/
structure Time where
  unix : Int
  loc : Location
deriving DecidableEq, Repr

/-- The method `Time.In`: the same instant in another location. -/
def Time.In (t : Time) (loc : Location) : Time := { t with loc := loc }

/-- The fields of the message event that the handler reads. -/
structure MessageCreate where
  GuildID : Int
  ChannelID : Int
  AuthorID : Int
  Content : String
deriving DecidableEq, Repr

/-- The fields of `discordgo.MessageEmbed` that the handler fills in. -/
structure MessageEmbed where
  Timestamp : String
  FooterText : String
deriving DecidableEq, Repr

/-- Outcome of `models.FindTimezoneGuildConfigG`. -/
inductive ConfigLookup where
  | found (conf : TimezoneGuildConfig)
  | noRows
  | failed
deriving DecidableEq, Repr

/-- The collaborators of the handler: clock, date parser, storage, timezone database and
time formatting. -/
structure World where
  /-- The reading of `time.Now()` at line 255. -/
  nowFirst : Time
  /-- The reading of `time.Now()` at line 277. -/
  nowSecond : Time
  /-- The call `p.DateParser.Parse`: the time of the result, `none` for an error or a nil result. -/
  Parse : String → Time → Option Time
  /-- The call `models.FindTimezoneGuildConfigG`. -/
  FindTimezoneGuildConfigG : Int → ConfigLookup
  /-- The call `models.FindUserTimezoneG`: the stored `TimezoneName`, `none` for an error. -/
  FindUserTimezoneG : Int → Option String
  /-- The call `time.LoadLocation`, `none` for an error. -/
  LoadLocation : String → Option Location
  /-- The method `Time.Format` with the given layout. -/
  Format : Time → String → String

/-- The function `GetUserTimezone` (lines 199-212). -/
def GetUserTimezone (w : World) (userID : Int) : Option Location :=
  match w.FindUserTimezoneG userID with
  | none => none
  | some timezoneName =>
    match w.LoadLocation timezoneName with
    | none => none
    | some loc => some loc

/-- The embed built at lines 282-287 from the time of the second parse. -/
def annotation (w : World) (t : Time) : MessageEmbed :=
  { Timestamp := w.Format t "2006-01-02T15:04:05Z07:00",
    FooterText := "Above time (" ++ w.Format t "15:04 MST" ++ ") in your local time" }

/-- The function `handleMessageCreate` (lines 249-290): the channel and embed passed to
`ChannelMessageSendEmbed`, or `none` when the handler returns without sending. -/
def handleMessageCreate (w : World) (m : MessageCreate) : Option (Int × MessageEmbed) :=
  if m.GuildID = 0 then none
  else
    match w.Parse m.Content w.nowFirst with
    | none => none
    | some _ =>
      let stop : Bool :=
        match w.FindTimezoneGuildConfigG m.GuildID with
        | ConfigLookup.failed => true
        | ConfigLookup.noRows => false
        | ConfigLookup.found conf => disabledIn conf m.ChannelID
      if stop then none
      else
        match GetUserTimezone w m.AuthorID with
        | none => none
        | some zone =>
          match w.Parse m.Content (w.nowSecond.In zone) with
          | none => none
          | some t => some (m.ChannelID, annotation w t)

/-! ## Sample data -/

/-- A small zone directory: three countries and their zones. -/
def sampleDirectory : Directory :=
  { CountryCodes := [("India", "IN"), ("China", "CN"), ("United States", "US")],
    CCToZones :=
      [("IN", ["Asia/Kolkata"]),
       ("CN", ["Asia/Shanghai", "Asia/Urumqi"]),
       ("US", ["America/New_York", "America/Chicago"])] }

/-- The sample directory with both maps visited in the opposite order. -/
def sampleDirectoryReversed : Directory :=
  { CountryCodes := sampleDirectory.CountryCodes.reverse,
    CCToZones := sampleDirectory.CCToZones.reverse }

/-- A world in which every message parses, every author has the zone `Europe/Oslo`, every
zone name loads, and the guild config lookup answers `lookup`. -/
def sampleWorld (lookup : ConfigLookup) : World :=
  { nowFirst := ⟨0, ⟨"UTC"⟩⟩,
    nowSecond := ⟨1, ⟨"UTC"⟩⟩,
    Parse := fun _ t => some t,
    FindTimezoneGuildConfigG := fun _ => lookup,
    FindUserTimezoneG := fun _ => some "Europe/Oslo",
    LoadLocation := fun zoneName => some ⟨zoneName⟩,
    Format := fun _ layout => layout }

/-! ## The commands -/

/-- The record `models.UserTimezone`. -/
structure UserTimezone where
  UserID : Int
  TimezoneName : String
deriving DecidableEq, Repr

/-- The collaborators of the two commands, on top of those of the handler: the zone
abbreviation of `time.Now().In(loc).Zone()`, the storage writes and the paginated-message
service. A storage call answers with its error, `none` standing for a nil error. -/
structure CommandWorld extends World where
  /-- The name returned by `time.Now().In(loc).Zone()`. -/
  ZoneAbbrev : Location → String
  /-- The call `UpsertG` on a `UserTimezone`. -/
  UpsertG : UserTimezone → Option String
  /-- The call `InsertG` on a `TimezoneGuildConfig`. -/
  InsertG : TimezoneGuildConfig → Option String
  /-- The call `UpdateG` on a `TimezoneGuildConfig`. -/
  UpdateG : TimezoneGuildConfig → Option String
  /-- The call `paginatedmessages.CreatePaginatedMessage` with guild, channel, first page
  and page count. -/
  CreatePaginatedMessage : Int → Int → Int → Int → Option String

/-- The function `StrZone` (lines 166-175). -/
def StrZone (w : CommandWorld) (zone : String) : String :=
  match w.LoadLocation zone with
  | none => ""
  | some loc => "`" ++ zone ++ "`: " ++ w.ZoneAbbrev loc

/-- Reduction of an integer to the range of a Go `int` (64 bits, two's complement). -/
def wrapInt (x : Int) : Int := (x + 2 ^ 63) % 2 ^ 64 - 2 ^ 63

/-- The loop of lines 183-191 over the zones from index `numSkip` on: the text `out` and
the count `numAdded` are threaded through, the loop breaks once ten lines were added. -/
def pageLoop (w : CommandWorld) : List String → String → Nat → String
  | [], out, _ => out
  | zone :: rest, out, numAdded =>
    if StrZone w zone != "" then
      if numAdded + 1 ≥ 10 then out ++ StrZone w zone ++ "\n"
      else pageLoop w rest (out ++ StrZone w zone ++ "\n") (numAdded + 1)
    else pageLoop w rest out numAdded

/-- The page function returned by `paginatedTimezones` (lines 177-197): the description of
the embed for `page`; `none` when `numSkip` is negative, where `timezones[i]` is out of
range. -/
def paginatedTimezones (w : CommandWorld) (timezones : List String) (page : Int) :
    Option String :=
  let numSkip := wrapInt ((page - 1) * 10)
  if numSkip < 0 then none
  else
    some ("Please redo the command with one of the following:\n"
      ++ pageLoop w (timezones.drop numSkip.toNat) "" 0)

/-- The reply of line 42. -/
def guidanceReply : String :=
  "Unknown timezone, enter a country or timezone (not abbreviation like CET). there\x27s a timezone picker here: <http://kevalbhatt.github.io/timezone-picker> you can use, enter the `Area/City` result"

/-- The inline listing of lines 52-57. -/
def inlineListing (w : CommandWorld) (zones : List String) : String :=
  zones.foldl (fun out v => if StrZone w v != "" then out ++ StrZone w v ++ "\n" else out)
    "More than 1 result, reuse the command with a one of the following:\n"

/-- The reply of line 78. -/
def setReply (zone name : String) : String :=
  "Set your timezone to `" ++ zone ++ "`: " ++ name ++ "\n"

/-- The arguments of a call of `CreatePaginatedMessage`; the page function
`paginatedTimezones(zones)` is represented by the list it closes over. -/
structure PaginatedCall where
  guild : Int
  channel : Int
  page : Int
  maxPages : Int
  timezones : List String
deriving DecidableEq, Repr

/-- What one run of the `settimezone` command does: the record handed to `UpsertG` (if the
call is made), the paginated message created (if any), and the returned pair of reply and
error. -/
structure SetTimezoneResult where
  upsert : Option UserTimezone
  paginated : Option PaginatedCall
  reply : Option String
  err : Option String
deriving DecidableEq, Repr

/-- The `RunFunc` of `settimezone` (lines 38-79) for the argument `arg`, in guild `gs` and
channel `cs`, invoked by `author`. The page count `int(math.Ceil(float64(n)/10))` is
`(n + 9) / 10`, exact for every slice length. -/
def settimezone (T : CaseTables) (w : CommandWorld) (dir : Directory) (arg : String)
    (gs cs author : Int) : SetTimezoneResult :=
  let zones := FindZone T dir arg
  if zones.length < 1 then
    { upsert := none, paginated := none, reply := some guidanceReply, err := none }
  else if zones.length > 1 then
    if zones.length > 10 then
      { upsert := none,
        paginated := some ⟨gs, cs, 1, ((zones.length + 9) / 10 : Nat), zones⟩,
        reply := none,
        err := w.CreatePaginatedMessage gs cs 1 ((zones.length + 9) / 10 : Nat) }
    else
      { upsert := none, paginated := none, reply := some (inlineListing w zones), err := none }
  else
    match zones.head? with
    | none => { upsert := none, paginated := none, reply := none, err := none }
    | some zone =>
      match w.LoadLocation zone with
      | none => { upsert := none, paginated := none, reply := some "Unknown timezone", err := none }
      | some loc =>
        match w.UpsertG ⟨author, zone⟩ with
        | some e => { upsert := some ⟨author, zone⟩, paginated := none, reply := none, err := some e }
        | none =>
          { upsert := some ⟨author, zone⟩, paginated := none,
            reply := some (setReply zone (w.ZoneAbbrev loc)), err := none }

/-- A write issued to the guild config table. -/
inductive ConfigWrite where
  | insert (conf : TimezoneGuildConfig)
  | update (conf : TimezoneGuildConfig)
deriving DecidableEq, Repr

/-- The error returned by the toggle command: the one of the failed lookup, or the one of
the failed write. -/
inductive ToggleError where
  | lookup
  | write (e : String)
deriving DecidableEq, Repr

/-- What one run of the toggle command does: the write issued (if any) and the returned
pair of reply and error. -/
structure ToggleResult where
  write : Option ConfigWrite
  reply : Option String
  err : Option ToggleError
deriving DecidableEq, Repr

/-- The `RunFunc` of `ToggleTimeConversion` (lines 89-162) for the argument `allStr`, in
guild `gs` and channel `cs`; `none` is a run-time failure of a slice expression. -/
def ToggleTimeConversion (w : CommandWorld) (allStr : String) (gs cs : Int) :
    Option ToggleResult :=
  let start : Option (TimezoneGuildConfig × Bool) :=
    match w.FindTimezoneGuildConfigG gs with
    | ConfigLookup.found conf => some (conf, false)
    | ConfigLookup.noRows => some (freshConfig gs, true)
    | ConfigLookup.failed => none
  match start with
  | none => some { write := none, reply := none, err := some ToggleError.lookup }
  | some (conf, insert) =>
    match toggle (isAll allStr) cs conf with
    | none => none
    | some (conf', resp) =>
      let err := if insert then w.InsertG conf' else w.UpdateG conf'
      let write := if insert then ConfigWrite.insert conf' else ConfigWrite.update conf'
      match err with
      | some e => some { write := some write, reply := none, err := some (ToggleError.write e) }
      | none => some { write := some write, reply := some resp, err := none }

/-- A command world over `sampleWorld` in which every storage call succeeds unless
`upsertError` is given, and the zone named `Bad/Zone` does not load. -/
def sampleCommandWorld (lookup : ConfigLookup) (upsertError : Option String) : CommandWorld :=
  { toWorld :=
      { sampleWorld lookup with
        LoadLocation := fun zoneName => if zoneName = "Bad/Zone" then none else some ⟨zoneName⟩ },
    ZoneAbbrev := fun _ => "CET",
    UpsertG := fun _ => upsertError,
    InsertG := fun _ => none,
    UpdateG := fun _ => none,
    CreatePaginatedMessage := fun _ _ _ _ => none }

/-- Twelve zone ids, the first of which does not load in `sampleCommandWorld`. -/
def twelveZones : List String :=
  ["Bad/Zone", "Z/b", "Z/c", "Z/d", "Z/e", "Z/f", "Z/g", "Z/h", "Z/i", "Z/j", "Z/k", "Z/l"]

/-! ## Lists: scanning, removal -/

theorem hasInfix_nil (l : List Char) : hasInfix [] l = true := by
  cases l <;> simp [hasInfix]

theorem hasInfix_iff (sub l : List Char) : hasInfix sub l = true ↔ sub <:+: l := by
  induction l with
  | nil => cases sub <;> simp [hasInfix]
  | cons c cs ih =>
    rw [hasInfix, Bool.or_eq_true, ih, List.isPrefixOf_iff_prefix, List.infix_cons_iff]

theorem char_toLower_toLower (c : Char) : c.toLower.toLower = c.toLower := by
  by_cases hc : 65 ≤ c.toNat ∧ c.toNat ≤ 90
  · have hc' : c = Char.ofNat c.toNat := (Char.ofNat_toNat c).symm
    obtain ⟨h1, h2⟩ := hc
    generalize c.toNat = n at *
    subst hc'
    interval_cases n <;> decide
  · have h : c.toLower = c := by
      unfold Char.toLower
      simp only [ge_iff_le]
      rw [if_neg hc]
    rw [h, h]

theorem char_toLower_ascii (c : Char) (h : c.toNat < 128) : c.toLower.toNat < 128 := by
  by_cases hc : 65 ≤ c.toNat ∧ c.toNat ≤ 90
  · have hc' : c = Char.ofNat c.toNat := (Char.ofNat_toNat c).symm
    obtain ⟨h1, h2⟩ := hc
    generalize c.toNat = n at *
    subst hc'
    interval_cases n <;> decide
  · have h' : c.toLower = c := by
      unfold Char.toLower
      simp only [ge_iff_le]
      rw [if_neg hc]
    rw [h']
    exact h

theorem isAscii_iff (s : String) : IsAscii s = true ↔ ∀ c ∈ s.data, c.toNat < 128 := by
  simp [IsAscii]

theorem isAscii_toLower (s : String) (h : IsAscii s = true) :
    IsAscii (toLower asciiTables s) = true := by
  rw [isAscii_iff] at h ⊢
  intro c hc
  simp only [toLower, asciiTables, List.mem_map] at hc
  obtain ⟨d, hd, rfl⟩ := hc
  exact char_toLower_ascii d (h d hd)

theorem toLower_of_ascii (T : CaseTables) (hT : AsciiFaithful T) (s : String)
    (h : IsAscii s = true) : toLower T s = toLower asciiTables s := by
  rw [isAscii_iff] at h
  simp only [toLower, asciiTables]
  congr 1
  exact List.map_congr_left (fun c hc => hT.1 c (h c hc))

theorem equalFoldRunes_of_ascii (T : CaseTables) (hT : AsciiFaithful T) (a b : List Char)
    (ha : ∀ c ∈ a, c.toNat < 128) (hb : ∀ c ∈ b, c.toNat < 128) :
    equalFoldRunes T a b = equalFoldRunes asciiTables a b := by
  induction a generalizing b with
  | nil => cases b <;> rfl
  | cons x xs ih =>
    cases b with
    | nil => rfl
    | cons y ys =>
      simp only [equalFoldRunes]
      rw [ih ys (fun c hc => ha c (List.mem_cons_of_mem _ hc))
        (fun c hc => hb c (List.mem_cons_of_mem _ hc)),
        hT.2 x y (ha x (List.mem_cons_self _ _)) (hb y (List.mem_cons_self _ _))]
      rfl

theorem equalFold_of_ascii (T : CaseTables) (hT : AsciiFaithful T) (a b : String)
    (ha : IsAscii a = true) (hb : IsAscii b = true) :
    equalFold T a b = equalFold asciiTables a b := by
  rw [isAscii_iff] at ha hb
  exact equalFoldRunes_of_ascii T hT a.data b.data ha hb

theorem containsInt64_iff (l : List Int) (v : Int) : ContainsInt64Slice l v = true ↔ v ∈ l := by
  simp [ContainsInt64Slice]

theorem containsString_iff (l : List String) (v : String) :
    ContainsStringSlice l v = true ↔ v ∈ l := by
  simp [ContainsStringSlice]

theorem isActive_eq_not_disabledIn (conf : TimezoneGuildConfig) (channel : Int) :
    isActive conf channel = !disabledIn conf channel := by
  simp [isActive, disabledIn]

theorem isActive_iff (conf : TimezoneGuildConfig) (channel : Int) :
    isActive conf channel = true ↔
      channel ∉ conf.DisabledInChannels ∧
        (conf.NewChannelsDisabled = true → channel ∈ conf.EnabledInChannels) := by
  cases hflag : conf.NewChannelsDisabled <;> simp [isActive, ContainsInt64Slice, hflag]

/-! ### The scan for the invoking channel in `DisabledInChannels` -/

theorem findDisabled_none (cs : Int) (l : List Int) (i : Nat) :
    findDisabled cs l i = none ↔ cs ∉ l := by
  induction l generalizing i with
  | nil => simp [findDisabled]
  | cons v rest ih =>
    by_cases h : v = cs
    · simp [findDisabled, h]
    · have h' : ¬ cs = v := fun e => h e.symm
      simp [findDisabled, h, h', ih]

theorem findDisabled_some (cs : Int) (l : List Int) (i j : Nat)
    (h : findDisabled cs l i = some j) :
    i ≤ j ∧ j - i < l.length ∧ l.take (j - i) ++ l.drop (j - i + 1) = l.erase cs := by
  induction l generalizing i with
  | nil => simp [findDisabled] at h
  | cons v rest ih =>
    by_cases hv : v = cs
    · simp [findDisabled, hv] at h
      subst h
      simp [hv]
    · simp only [findDisabled, hv, if_false] at h
      obtain ⟨h1, h2, h3⟩ := ih (i + 1) h
      have hj : j - i = (j - (i + 1)) + 1 := by omega
      refine ⟨by omega, ?_, ?_⟩
      · simp only [List.length_cons]; omega
      · have hne : (v == cs) = false := by simpa using hv
        rw [hj, List.erase_cons, hne]
        simp [h3]

theorem removeAt_full (l : List Int) (i : Nat) (h : i < l.length) :
    ∃ arr, removeAt l l.length i = some (arr, l.length - 1) ∧
      arr.take (l.length - 1) = l.take i ++ l.drop (i + 1) := by
  refine ⟨_, by simp only [removeAt]; rw [if_pos (by omega)], ?_⟩
  have h1 : (l.drop (i + 1)).take (l.length - (i + 1)) = l.drop (i + 1) := by
    apply List.take_of_length_le
    simp
  rw [h1, List.take_append_of_le_length (by simp; omega)]
  apply List.take_of_length_le
  simp
  omega

/-! ### The removal loop over `EnabledInChannels` -/

theorem removeEnabledLoop_skip (cs : Int) (k i : Nat) (arr : List Int) (len : Nat)
    (h : ∀ x ∈ arr.drop i, x ≠ cs) :
    removeEnabledLoop cs k i arr len = some (arr, len) := by
  induction k generalizing i with
  | zero => rfl
  | succ k ih =>
    have hi : ¬ arr[i]? = some cs := by
      intro e
      have hlt : i < arr.length := by
        by_contra hge
        rw [List.getElem?_eq_none (by omega)] at e
        cases e
      have hmem : cs ∈ arr.drop i := by
        rw [List.mem_iff_getElem?]
        exact ⟨0, by rw [List.getElem?_drop]; simpa using e⟩
      exact h cs hmem rfl
    rw [removeEnabledLoop, if_neg hi]
    apply ih
    intro x hx
    apply h
    have : arr.drop (i + 1) = (arr.drop i).drop 1 := by rw [List.drop_drop]
    rw [this] at hx
    exact List.mem_of_mem_drop hx

theorem removeEnabledLoop_nodup (cs : Int) (rest pre : List Int) (hnd : rest.Nodup) :
    ∃ arr len,
      removeEnabledLoop cs rest.length pre.length (pre ++ rest) (pre.length + rest.length)
        = some (arr, len) ∧ arr.take len = pre ++ rest.erase cs := by
  induction rest generalizing pre with
  | nil => exact ⟨pre, pre.length, by simp [removeEnabledLoop], by simp⟩
  | cons v r ih =>
    have hget : (pre ++ v :: r)[pre.length]? = some v := by
      rw [List.getElem?_append_right (Nat.le_refl _)]
      simp
    by_cases hv : v = cs
    · subst hv
      have hnot : v ∉ r := (List.nodup_cons.mp hnd).1
      have hrem : removeAt (pre ++ v :: r) (pre.length + (v :: r).length) pre.length
          = some (pre ++ r ++ (v :: r).drop r.length, pre.length + r.length) := by
        simp only [removeAt, List.length_cons]
        rw [if_pos (by omega)]
        have e1 : (pre ++ v :: r).take pre.length = pre := by simp
        have e2 : (pre ++ v :: r).drop (pre.length + 1) = r := by
          rw [List.drop_append_eq_append_drop]
          simp
        have e3 : (pre ++ v :: r).drop (pre.length + (r.length + 1) - 1)
            = (v :: r).drop r.length := by
          rw [List.drop_append_eq_append_drop]
          have : pre.length + (r.length + 1) - 1 - pre.length = r.length := by omega
          rw [this, List.drop_of_length_le (by omega)]
          simp
        have e4 : pre.length + (r.length + 1) - (pre.length + 1) = r.length := by omega
        rw [e1, e2, e3, e4, List.take_length]
        rfl
      have hskip : ∀ x ∈ (pre ++ r ++ (v :: r).drop r.length).drop (pre.length + 1), x ≠ v := by
        intro x hx
        have hx' : x ∈ (r ++ (v :: r).drop r.length).drop 1 := by
          rw [List.append_assoc, List.drop_append_eq_append_drop] at hx
          simpa [List.drop_of_length_le] using hx
        have hxr : x ∈ r := by
          cases r with
          | nil => simp at hx'
          | cons a r' =>
            simp only [List.length_cons, List.cons_append, List.drop_succ_cons, List.drop_zero,
              List.mem_append] at hx'
            rcases hx' with h | h
            · exact List.mem_cons_of_mem _ h
            · exact List.mem_of_mem_drop h
        intro e
        exact hnot (e ▸ hxr)
      refine ⟨pre ++ r ++ (v :: r).drop r.length, pre.length + r.length, ?_, ?_⟩
      · simp only [List.length_cons]
        rw [removeEnabledLoop, if_pos hget]
        simp only [List.length_cons] at hrem
        rw [hrem]
        exact removeEnabledLoop_skip v r.length (pre.length + 1) _ _ hskip
      · rw [List.take_append_of_le_length (by simp)]
        rw [List.take_of_length_le (by simp)]
        simp
    · have hne : ¬ (pre ++ v :: r)[pre.length]? = some cs := by
        rw [hget]
        intro e
        exact hv (Option.some.inj e)
      obtain ⟨arr, len, h1, h2⟩ := ih (pre ++ [v]) (List.nodup_cons.mp hnd).2
      refine ⟨arr, len, ?_, ?_⟩
      · simp only [List.length_cons]
        rw [removeEnabledLoop, if_neg hne]
        have e1 : pre ++ v :: r = pre ++ [v] ++ r := by simp
        have e2 : pre.length + 1 = (pre ++ [v]).length := by simp
        have e3 : pre.length + (r.length + 1) = (pre ++ [v]).length + r.length := by
          simp; omega
        rw [e1, e2, e3]
        exact h1
      · have hb : (v == cs) = false := by simpa using hv
        rw [h2, List.erase_cons, hb]
        simp

theorem removeEnabled_nodup (cs : Int) (enabled : List Int) (hnd : enabled.Nodup) :
    removeEnabled cs enabled = some (enabled.erase cs) := by
  obtain ⟨arr, len, h1, h2⟩ := removeEnabledLoop_nodup cs enabled [] hnd
  simp only [List.length_nil, List.nil_append, Nat.zero_add] at h1 h2
  simp only [removeEnabled, h1, h2]

/-! ### What the per-channel branch computes -/

theorem toggle_found (cs : Int) (conf : TimezoneGuildConfig)
    (h : cs ∈ conf.DisabledInChannels) :
    toggle false cs conf =
      some ({ conf with
              DisabledInChannels := conf.DisabledInChannels.erase cs,
              EnabledInChannels :=
                if conf.NewChannelsDisabled then conf.EnabledInChannels ++ [cs]
                else conf.EnabledInChannels },
        toggledReply "on") := by
  cases hf : findDisabled cs conf.DisabledInChannels 0 with
  | none => exact absurd h ((findDisabled_none cs _ 0).mp hf)
  | some i =>
    obtain ⟨_, h2, h3⟩ := findDisabled_some cs _ 0 i hf
    simp only [Nat.sub_zero] at h2 h3
    obtain ⟨arr, ha, hb⟩ := removeAt_full conf.DisabledInChannels i h2
    simp only [toggle, hf, ha, hb, h3]
    rfl

theorem toggle_notFound (cs : Int) (conf : TimezoneGuildConfig)
    (h : cs ∉ conf.DisabledInChannels) (hnd : conf.EnabledInChannels.Nodup) :
    toggle false cs conf =
      some ({ conf with
              DisabledInChannels := conf.DisabledInChannels ++ [cs],
              EnabledInChannels := conf.EnabledInChannels.erase cs },
        toggledReply "off") := by
  have hf := (findDisabled_none cs conf.DisabledInChannels 0).mpr h
  simp only [toggle, hf, removeEnabled_nodup cs _ hnd]
  rfl

theorem toggle_all (cs : Int) (conf : TimezoneGuildConfig) :
    toggle true cs conf =
      if conf.NewChannelsDisabled then
        some ({ conf with NewChannelsDisabled := false, DisabledInChannels := [] },
          enabledAllReply)
      else
        some ({ conf with NewChannelsDisabled := true, EnabledInChannels := [] },
          disabledAllReply) := by
  simp [toggle]

theorem listsExclusive_toggle (b : Bool) (cs : Int) (conf : TimezoneGuildConfig)
    (h : ListsExclusive conf) :
    ∃ conf' resp, toggle b cs conf = some (conf', resp) ∧ ListsExclusive conf' := by
  obtain ⟨hdis, hD, hE⟩ := h
  cases b with
  | true =>
    rw [toggle_all]
    cases hflag : conf.NewChannelsDisabled
    · exact ⟨_, _, rfl, by simp [ListsExclusive, hD]⟩
    · exact ⟨_, _, rfl, by simp [ListsExclusive, hE]⟩
  | false =>
    by_cases hmem : cs ∈ conf.DisabledInChannels
    · refine ⟨_, _, toggle_found cs conf hmem, ?_⟩
      have hcsE : cs ∉ conf.EnabledInChannels := fun h' => hdis cs ⟨hmem, h'⟩
      cases hflag : conf.NewChannelsDisabled
      · refine ⟨?_, hD.erase cs, by simpa using hE⟩
        intro c hc
        exact hdis c ⟨List.mem_of_mem_erase hc.1, by simpa using hc.2⟩
      · refine ⟨?_, hD.erase cs, ?_⟩
        · intro c hc
          have h1 : c ∈ conf.DisabledInChannels.erase cs := hc.1
          have h2 : c ∈ conf.EnabledInChannels ++ [cs] := by simpa using hc.2
          rcases List.mem_append.mp h2 with h3 | h3
          · exact hdis c ⟨List.mem_of_mem_erase h1, h3⟩
          · have hc' : c = cs := by simpa using h3
            subst hc'
            exact (List.Nodup.not_mem_erase hD) h1
        · simp only [if_true]
          rw [List.nodup_append]
          refine ⟨hE, List.nodup_singleton cs, ?_⟩
          intro a ha hb
          have : a = cs := by simpa using hb
          exact hcsE (this ▸ ha)
    · refine ⟨_, _, toggle_notFound cs conf hmem hE, ?_⟩
      refine ⟨?_, ?_, hE.erase cs⟩
      · intro c hc
        have h1 : c ∈ conf.DisabledInChannels ++ [cs] := hc.1
        have h2 : c ∈ conf.EnabledInChannels.erase cs := hc.2
        rcases List.mem_append.mp h1 with h3 | h3
        · exact hdis c ⟨h3, List.mem_of_mem_erase h2⟩
        · have hc' : c = cs := by simpa using h3
          subst hc'
          exact (List.Nodup.not_mem_erase hE) h2
      · show (conf.DisabledInChannels ++ [cs]).Nodup
        rw [List.nodup_append]
        refine ⟨hD, List.nodup_singleton cs, ?_⟩
        intro a ha hb
        have : a = cs := by simpa using hb
        exact hmem (this ▸ ha)

theorem listsExclusive_runToggles (cmds : List (String × Int)) (conf : TimezoneGuildConfig)
    (h : ListsExclusive conf) :
    ∃ conf', runToggles cmds conf = some conf' ∧ ListsExclusive conf' := by
  induction cmds generalizing conf with
  | nil => exact ⟨conf, rfl, h⟩
  | cons cmd rest ih =>
    obtain ⟨allStr, cs⟩ := cmd
    obtain ⟨c1, r1, h1, h2⟩ := listsExclusive_toggle (isAll allStr) cs conf h
    obtain ⟨c2, h3, h4⟩ := ih c1 h2
    refine ⟨c2, ?_, h4⟩
    simp only [runToggles, toggleWith, h1]
    exact h3

theorem toggleWith_all (allStr : String) (cs : Int) (conf : TimezoneGuildConfig)
    (h : isAll allStr = true) : toggleWith allStr cs conf = toggle true cs conf := by
  simp [toggleWith, h]

theorem toggleWith_channel (allStr : String) (cs : Int) (conf : TimezoneGuildConfig)
    (h : isAll allStr = false) : toggleWith allStr cs conf = toggle false cs conf := by
  simp [toggleWith, h]

/-! ### The loops of `FindZone` as list operations -/

theorem foldl_append_if {α β : Type} (p : α → Bool) (f : α → β) (l : List α) (init : List β) :
    l.foldl (fun acc a => if p a = true then acc ++ [f a] else acc) init
      = init ++ (l.filter p).map f := by
  induction l generalizing init with
  | nil => simp
  | cons a rest ih =>
    rw [List.foldl_cons, ih]
    cases hp : p a <;> simp [List.filter_cons, hp]

theorem matchingCodes_eq (T : CaseTables) (dir : Directory) (lowerIn : String) :
    matchingCodes T dir lowerIn
      = (dir.CountryCodes.filter (fun e => contains (toLower T e.1) lowerIn)).map Prod.snd := by
  simp only [matchingCodes]
  rw [foldl_append_if (fun e => contains (toLower T e.1) lowerIn) Prod.snd]
  simp

theorem mem_matchingCodes (T : CaseTables) (dir : Directory) (lowerIn code : String) :
    code ∈ matchingCodes T dir lowerIn ↔
      ∃ name, (name, code) ∈ dir.CountryCodes ∧ contains (toLower T name) lowerIn = true := by
  rw [matchingCodes_eq]
  simp only [List.mem_map, List.mem_filter]
  constructor
  · rintro ⟨⟨name, c⟩, ⟨h1, h2⟩, h3⟩
    simp only at h3
    subst h3
    exact ⟨name, h1, h2⟩
  · rintro ⟨name, h1, h2⟩
    exact ⟨(name, code), ⟨h1, h2⟩, rfl⟩

theorem zonesOfEntry_eq (T : CaseTables) (ccs : List String) (lowerIn inSpaceReplaced : String)
    (entry : String × List String) :
    zonesOfEntry T ccs lowerIn inSpaceReplaced entry =
      if ContainsStringSlice ccs entry.1 || equalFold T entry.1 lowerIn then entry.2
      else entry.2.filter (fun v => contains (toLower T v) inSpaceReplaced) := by
  simp only [zonesOfEntry]
  have h1 : entry.2.foldl (fun acc v => acc ++ [v]) [] = entry.2 := by
    have h := foldl_append_if (fun _ : String => true) id entry.2 []
    simpa using h
  have h2 : entry.2.foldl
      (fun acc v => if contains (toLower T v) inSpaceReplaced = true then acc ++ [v] else acc) []
      = entry.2.filter (fun v => contains (toLower T v) inSpaceReplaced) := by
    have h := foldl_append_if (fun v : String => contains (toLower T v) inSpaceReplaced) id
      entry.2 []
    simpa using h
  rw [h1, h2]

theorem FindZone_eq (T : CaseTables) (dir : Directory) (input : String) :
    FindZone T dir input =
      dir.CCToZones.flatMap
        (zonesOfEntry T (matchingCodes T dir (toLower T input)) (toLower T input)
          (replaceSpaces (toLower T input))) := by
  simp only [FindZone]
  rw [List.flatMap_eq_foldl]

theorem zones_infix_FindZone (T : CaseTables) (dir : Directory) (input code : String)
    (zones : List String) (hmem : (code, zones) ∈ dir.CCToZones)
    (h : (∃ name, (name, code) ∈ dir.CountryCodes ∧
            contains (toLower T name) (toLower T input) = true) ∨
          equalFold T code (toLower T input) = true) :
    zones <:+: FindZone T dir input := by
  have hz : zonesOfEntry T (matchingCodes T dir (toLower T input)) (toLower T input)
      (replaceSpaces (toLower T input)) (code, zones) = zones := by
    rw [zonesOfEntry_eq]
    have hc : (ContainsStringSlice (matchingCodes T dir (toLower T input)) code
        || equalFold T code (toLower T input)) = true := by
      rw [Bool.or_eq_true, containsString_iff, mem_matchingCodes]
      exact h
    simp only [hc, if_true]
  obtain ⟨pre, post, hsplit⟩ := List.append_of_mem hmem
  rw [FindZone_eq, hsplit, List.flatMap_append, List.flatMap_cons, hz]
  exact ⟨_, _, by rw [List.append_assoc]⟩

theorem contains_empty (s : String) : contains s "" = true := by
  simp only [contains]
  exact hasInfix_nil s.data

theorem flatMap_sublist_flatMap {α β : Type} (f g : α → List β) (l : List α)
    (h : ∀ a ∈ l, (f a).Sublist (g a)) : (l.flatMap f).Sublist (l.flatMap g) := by
  induction l with
  | nil => simp
  | cons a rest ih =>
    rw [List.flatMap_cons, List.flatMap_cons]
    exact List.Sublist.append (h a (List.mem_cons_self _ _))
      (ih (fun b hb => h b (List.mem_cons_of_mem _ hb)))

theorem flatMap_congr_mem {α β : Type} (f g : α → List β) (l : List α)
    (h : ∀ a ∈ l, f a = g a) : l.flatMap f = l.flatMap g := by
  induction l with
  | nil => rfl
  | cons a rest ih =>
    rw [List.flatMap_cons, List.flatMap_cons, h a (List.mem_cons_self _ _),
      ih (fun b hb => h b (List.mem_cons_of_mem _ hb))]

theorem zonesOfEntry_sublist (T : CaseTables) (ccs : List String)
    (lowerIn inSpaceReplaced : String) (entry : String × List String) :
    (zonesOfEntry T ccs lowerIn inSpaceReplaced entry).Sublist entry.2 := by
  rw [zonesOfEntry_eq]
  split
  · exact List.Sublist.refl _
  · exact List.filter_sublist _

theorem FindZone_sublist (T : CaseTables) (dir : Directory) (input : String) :
    (FindZone T dir input).Sublist (dir.CCToZones.flatMap Prod.snd) := by
  rw [FindZone_eq]
  exact flatMap_sublist_flatMap _ _ _ (fun e _ => zonesOfEntry_sublist T _ _ _ e)

theorem FindZone_empty (T : CaseTables) (dir : Directory) :
    FindZone T dir "" = dir.CCToZones.flatMap Prod.snd := by
  rw [FindZone_eq]
  have hl : toLower T "" = "" := rfl
  have hr : replaceSpaces "" = "" := by decide
  rw [hl, hr]
  congr 1
  funext e
  rw [zonesOfEntry_eq]
  split
  · rfl
  · simp [contains_empty]

/-! ### What `FindZone` reads of the case tables, and of the visiting order -/

theorem FindZone_congr (T T' : CaseTables) (dir : Directory) (Q Q' : String)
    (hq : toLower T Q = toLower T' Q')
    (hn : ∀ e ∈ dir.CountryCodes, toLower T e.1 = toLower T' e.1)
    (hz : ∀ e ∈ dir.CCToZones, ∀ z ∈ e.2, toLower T z = toLower T' z)
    (hc : ∀ e ∈ dir.CCToZones,
      equalFold T e.1 (toLower T' Q') = equalFold T' e.1 (toLower T' Q')) :
    FindZone T dir Q = FindZone T' dir Q' := by
  rw [FindZone_eq, FindZone_eq, hq]
  have hm : matchingCodes T dir (toLower T' Q') = matchingCodes T' dir (toLower T' Q') := by
    rw [matchingCodes_eq, matchingCodes_eq]
    congr 1
    apply List.filter_congr
    intro e he
    rw [hn e he]
  rw [hm]
  apply flatMap_congr_mem
  intro e he
  rw [zonesOfEntry_eq, zonesOfEntry_eq, hc e he]
  congr 1
  apply List.filter_congr
  intro z hzm
  rw [hz e he z hzm]

theorem FindZone_of_ascii (T : CaseTables) (hT : AsciiFaithful T) (dir : Directory)
    (Q : String) (hQ : IsAscii Q = true)
    (hn : ∀ e ∈ dir.CountryCodes, IsAscii e.1 = true)
    (hc : ∀ e ∈ dir.CCToZones, IsAscii e.1 = true)
    (hz : ∀ e ∈ dir.CCToZones, ∀ z ∈ e.2, IsAscii z = true) :
    FindZone T dir Q = FindZone asciiTables dir Q :=
  FindZone_congr T asciiTables dir Q Q (toLower_of_ascii T hT Q hQ)
    (fun e he => toLower_of_ascii T hT e.1 (hn e he))
    (fun e he z hzm => toLower_of_ascii T hT z (hz e he z hzm))
    (fun e he => equalFold_of_ascii T hT e.1 _ (hc e he) (isAscii_toLower Q hQ))

theorem zonesOfEntry_congr_ccs (T : CaseTables) (ccs ccs' : List String)
    (lowerIn inSpaceReplaced : String) (entry : String × List String)
    (h : ∀ c, c ∈ ccs ↔ c ∈ ccs') :
    zonesOfEntry T ccs lowerIn inSpaceReplaced entry
      = zonesOfEntry T ccs' lowerIn inSpaceReplaced entry := by
  rw [zonesOfEntry_eq, zonesOfEntry_eq]
  have hb : ContainsStringSlice ccs entry.1 = ContainsStringSlice ccs' entry.1 := by
    rw [Bool.eq_iff_iff, containsString_iff, containsString_iff]
    exact h entry.1
  rw [hb]

theorem FindZone_perm (T : CaseTables) (dir dir' : Directory) (Q Q' : String)
    (hd : SameMaps dir dir') (hq : toLower T Q = toLower T Q') :
    (FindZone T dir Q).Perm (FindZone T dir' Q') := by
  rw [FindZone_eq, FindZone_eq, hq]
  have hf : zonesOfEntry T (matchingCodes T dir (toLower T Q')) (toLower T Q')
        (replaceSpaces (toLower T Q'))
      = zonesOfEntry T (matchingCodes T dir' (toLower T Q')) (toLower T Q')
        (replaceSpaces (toLower T Q')) := by
    funext e
    apply zonesOfEntry_congr_ccs
    intro c
    rw [matchingCodes_eq, matchingCodes_eq]
    exact ((hd.1.filter _).map Prod.snd).mem_iff
  rw [hf]
  exact List.Perm.flatMap_right _ hd.2

theorem FindZone_of_lower_eq (T : CaseTables) (dir : Directory) (Q Q' : String)
    (hq : toLower T Q = toLower T Q') : FindZone T dir Q = FindZone T dir Q' := by
  rw [FindZone_eq, FindZone_eq, hq]

theorem sameMaps_refl (dir : Directory) : SameMaps dir dir :=
  ⟨List.Perm.refl _, List.Perm.refl _⟩

theorem FindZone_sample (T : CaseTables) (hT : AsciiFaithful T) (Q : String)
    (hQ : IsAscii Q = true) :
    FindZone T sampleDirectory Q = FindZone asciiTables sampleDirectory Q :=
  FindZone_of_ascii T hT sampleDirectory Q hQ (by decide) (by decide) (by decide)

theorem FindZone_sampleReversed (T : CaseTables) (hT : AsciiFaithful T) (Q : String)
    (hQ : IsAscii Q = true) :
    FindZone T sampleDirectoryReversed Q = FindZone asciiTables sampleDirectoryReversed Q :=
  FindZone_of_ascii T hT sampleDirectoryReversed Q hQ (by decide) (by decide) (by decide)

theorem sameMaps_sampleReversed : SameMaps sampleDirectory sampleDirectoryReversed :=
  ⟨(List.reverse_perm _).symm, (List.reverse_perm _).symm⟩

/-! ## The channel visibility policy -/

/-- C1, evaluated at the input where it fails: on a fresh guild the argument `all` leads to
the default-disabled config with both lists empty; there channel 1 is inactive, the
per-channel toggle of channel 1 only appends it to `DisabledInChannels` and replies `off`,
and channel 1 is inactive afterwards as well, so its status is not negated. -/
theorem toggleChannel_modeB_unlisted_stays_inactive :
    runToggles [("all", 1)] (freshConfig 7) = some ⟨7, true, [], []⟩ ∧
      isActive ⟨7, true, [], []⟩ 1 = false ∧
      toggleWith "" 1 ⟨7, true, [], []⟩ = some (⟨7, true, [1], []⟩, toggledReply "off") ∧
      isActive ⟨7, true, [1], []⟩ 1 = false := by
  decide

/-- C2 as stated fails: starting in default-enabled mode with channel 5 disabled, the
argument `all` enters default-disabled mode and `DisabledInChannels` is still `[5]`. -/
theorem toggleAll_clears_named_list_counterexample :
    ¬ (∀ (allStr : String) (cs : Int) (conf conf' : TimezoneGuildConfig) (resp : String),
        isAll allStr = true → toggleWith allStr cs conf = some (conf', resp) →
        (conf'.NewChannelsDisabled = true → conf'.DisabledInChannels = []) ∧
          (conf'.NewChannelsDisabled = false → conf'.EnabledInChannels = [])) := by
  intro h
  have h1 := h "all" 1 ⟨7, false, [5], []⟩ ⟨7, true, [5], []⟩ disabledAllReply
    (by decide) (by decide)
  exact absurd (h1.1 rfl) (by decide)

/-- C2, amended: the guild-wide toggle (argument `all` or `*`, any letter case) always
succeeds, flips `NewChannelsDisabled`, and clears the list that would contradict the new
default: entering default-disabled mode leaves `EnabledInChannels` empty, entering
default-enabled mode leaves `DisabledInChannels` empty. -/
theorem toggleAll_flips_and_clears (allStr : String) (cs : Int) (conf : TimezoneGuildConfig)
    (h : isAll allStr = true) :
    ∃ conf' resp, toggleWith allStr cs conf = some (conf', resp) ∧
      conf'.NewChannelsDisabled = (!conf.NewChannelsDisabled) ∧
      (conf'.NewChannelsDisabled = true → conf'.EnabledInChannels = []) ∧
      (conf'.NewChannelsDisabled = false → conf'.DisabledInChannels = []) := by
  rw [toggleWith_all allStr cs conf h, toggle_all]
  cases hflag : conf.NewChannelsDisabled
  · exact ⟨_, _, rfl, by simp, by simp, by simp⟩
  · exact ⟨_, _, rfl, by simp, by simp, by simp⟩

/-- Instance of `toggleAll_flips_and_clears` at the argument `*` on a config in
default-enabled mode with both lists non-empty. -/
theorem toggleAll_flips_and_clears_witness :
    isAll "*" = true ∧
      ∃ conf' resp, toggleWith "*" 3 ⟨7, false, [5], [9]⟩ = some (conf', resp) ∧
        conf'.NewChannelsDisabled = (!false) ∧
        (conf'.NewChannelsDisabled = true → conf'.EnabledInChannels = []) ∧
        (conf'.NewChannelsDisabled = false → conf'.DisabledInChannels = []) :=
  ⟨by decide, toggleAll_flips_and_clears "*" 3 ⟨7, false, [5], [9]⟩ (by decide)⟩

/-- C3: from any config, two guild-wide toggles in a row (each with argument `all` or `*`,
from any channels) succeed and give a config with the starting value of
`NewChannelsDisabled` and with `DisabledInChannels` and `EnabledInChannels` both empty. -/
theorem toggleAll_twice (a₁ a₂ : String) (cs₁ cs₂ : Int) (conf : TimezoneGuildConfig)
    (h₁ : isAll a₁ = true) (h₂ : isAll a₂ = true) :
    ∃ conf', runToggles [(a₁, cs₁), (a₂, cs₂)] conf = some conf' ∧
      conf'.NewChannelsDisabled = conf.NewChannelsDisabled ∧
      conf'.DisabledInChannels = [] ∧ conf'.EnabledInChannels = [] := by
  simp only [runToggles, toggleWith, h₁, h₂, toggle_all]
  cases hflag : conf.NewChannelsDisabled
  · exact ⟨_, rfl, rfl, rfl, rfl⟩
  · exact ⟨_, rfl, rfl, rfl, rfl⟩

/-- Instance of `toggleAll_twice` with the arguments `ALL` and `*` on a config in
default-disabled mode with both lists non-empty. -/
theorem toggleAll_twice_witness :
    (isAll "ALL" = true ∧ isAll "*" = true) ∧
      ∃ conf', runToggles [("ALL", 1), ("*", 2)] ⟨7, true, [5, 6], [9]⟩ = some conf' ∧
        conf'.NewChannelsDisabled = true ∧
        conf'.DisabledInChannels = [] ∧ conf'.EnabledInChannels = [] :=
  ⟨⟨by decide, by decide⟩,
    toggleAll_twice "ALL" "*" 1 2 ⟨7, true, [5, 6], [9]⟩ (by decide) (by decide)⟩

/-- C4: the guild-wide toggle succeeds with one of its two replies, and on the config it
produces every channel has the status the reply announces: inactive everywhere after
"Disabled time conversion in all channels, ...", active everywhere after
"Enabled time conversion in all channels.", whatever the lists held before. -/
theorem toggleAll_status_uniform (allStr : String) (cs : Int) (conf : TimezoneGuildConfig)
    (h : isAll allStr = true) :
    ∃ conf' resp, toggleWith allStr cs conf = some (conf', resp) ∧
      (resp = disabledAllReply ∨ resp = enabledAllReply) ∧
      (resp = disabledAllReply → ∀ channel, isActive conf' channel = false) ∧
      (resp = enabledAllReply → ∀ channel, isActive conf' channel = true) := by
  have hne : disabledAllReply ≠ enabledAllReply := by decide
  rw [toggleWith_all allStr cs conf h, toggle_all]
  cases hflag : conf.NewChannelsDisabled
  · refine ⟨_, _, rfl, Or.inl rfl, ?_, fun e => absurd e hne⟩
    intro _ channel
    simp [isActive, ContainsInt64Slice]
  · refine ⟨_, _, rfl, Or.inr rfl, fun e => absurd e.symm hne, ?_⟩
    intro _ channel
    simp [isActive, ContainsInt64Slice]

/-- Instance of `toggleAll_status_uniform` at the argument `all` on a config in
default-enabled mode where channel 9 is listed as enabled. -/
theorem toggleAll_status_uniform_witness :
    isAll "all" = true ∧
      ∃ conf' resp, toggleWith "all" 3 ⟨7, false, [5], [9]⟩ = some (conf', resp) ∧
        (resp = disabledAllReply ∨ resp = enabledAllReply) ∧
        (resp = disabledAllReply → ∀ channel, isActive conf' channel = false) ∧
        (resp = enabledAllReply → ∀ channel, isActive conf' channel = true) :=
  ⟨by decide, toggleAll_status_uniform "all" 3 ⟨7, false, [5], [9]⟩ (by decide)⟩

/-- C5: every finite sequence of toggle commands (guild-wide or per-channel, on arbitrary
channels) run from the config of a fresh guild completes, and in the config it reaches no
channel id is in both `DisabledInChannels` and `EnabledInChannels` and neither list
contains a duplicate. -/
theorem reachable_lists_exclusive (guild : Int) (cmds : List (String × Int)) :
    ∃ conf, runToggles cmds (freshConfig guild) = some conf ∧
      (∀ c, ¬ (c ∈ conf.DisabledInChannels ∧ c ∈ conf.EnabledInChannels)) ∧
      conf.DisabledInChannels.Nodup ∧ conf.EnabledInChannels.Nodup := by
  have h0 : ListsExclusive (freshConfig guild) := by
    simp [ListsExclusive, freshConfig]
  exact listsExclusive_runToggles cmds (freshConfig guild) h0

/-- C6: on a config with duplicate-free lists the per-channel toggle succeeds, and the
status word of its reply is `on` exactly when the invoking channel is active on the config
it writes back, `off` otherwise (the two replies being different strings). -/
theorem toggleChannel_reply_is_new_status (allStr : String) (cs : Int)
    (conf : TimezoneGuildConfig) (hall : isAll allStr = false)
    (hD : conf.DisabledInChannels.Nodup) (hE : conf.EnabledInChannels.Nodup) :
    toggledReply "on" ≠ toggledReply "off" ∧
      ∃ conf', toggleWith allStr cs conf =
        some (conf', toggledReply (if isActive conf' cs = true then "on" else "off")) := by
  refine ⟨by decide, ?_⟩
  rw [toggleWith_channel allStr cs conf hall]
  by_cases hmem : cs ∈ conf.DisabledInChannels
  · refine ⟨{ conf with
        DisabledInChannels := conf.DisabledInChannels.erase cs,
        EnabledInChannels :=
          if conf.NewChannelsDisabled then conf.EnabledInChannels ++ [cs]
          else conf.EnabledInChannels }, ?_⟩
    rw [toggle_found cs conf hmem]
    have hact : isActive { conf with
        DisabledInChannels := conf.DisabledInChannels.erase cs,
        EnabledInChannels :=
          if conf.NewChannelsDisabled then conf.EnabledInChannels ++ [cs]
          else conf.EnabledInChannels } cs = true := by
      rw [isActive_iff]
      refine ⟨List.Nodup.not_mem_erase hD, ?_⟩
      intro hflag
      have hflag' : conf.NewChannelsDisabled = true := hflag
      simp [hflag']
    rw [if_pos hact]
  · refine ⟨{ conf with
        DisabledInChannels := conf.DisabledInChannels ++ [cs],
        EnabledInChannels := conf.EnabledInChannels.erase cs }, ?_⟩
    rw [toggle_notFound cs conf hmem hE]
    have hact : ¬ isActive { conf with
        DisabledInChannels := conf.DisabledInChannels ++ [cs],
        EnabledInChannels := conf.EnabledInChannels.erase cs } cs = true := by
      rw [isActive_iff]
      intro h
      exact h.1 (by simp)
    rw [if_neg hact]

/-- Instance of `toggleChannel_reply_is_new_status` for channel 4 with an empty argument,
in default-disabled mode with channel 4 listed as enabled. -/
theorem toggleChannel_reply_is_new_status_witness :
    (isAll "" = false ∧ [5].Nodup ∧ [9, 4].Nodup) ∧
      toggledReply "on" ≠ toggledReply "off" ∧
      ∃ conf', toggleWith "" 4 ⟨7, true, [5], [9, 4]⟩ =
        some (conf', toggledReply (if isActive conf' 4 = true then "on" else "off")) :=
  ⟨⟨by decide, by decide, by decide⟩,
    toggleChannel_reply_is_new_status "" 4 ⟨7, true, [5], [9, 4]⟩
      (by decide) (by decide) (by decide)⟩

/-! ## Zone resolution -/

/-- C8: if the lower-cased name of a country contains the lower-cased query, then the whole
zone list of that country's code is part of `FindZone` (as one block, hence every zone of
it occurs in the result), whatever else the query matches; for every query and whatever the
Unicode case tables are. -/
theorem findZone_country_name (T : CaseTables) (dir : Directory) (Q name code : String)
    (zones : List String)
    (hname : (name, code) ∈ dir.CountryCodes)
    (hsub : contains (toLower T name) (toLower T Q) = true)
    (hmem : (code, zones) ∈ dir.CCToZones) :
    zones <:+: FindZone T dir Q ∧ ∀ z ∈ zones, z ∈ FindZone T dir Q := by
  have h := zones_infix_FindZone T dir Q code zones hmem (Or.inl ⟨name, hname, hsub⟩)
  exact ⟨h, fun z hz => h.subset hz⟩

/-- Instance of `findZone_country_name` with the ASCII tables: in the sample directory the
query `CHIN` is part of the name `China`, whose code `CN` lists two zones. -/
theorem findZone_country_name_witness :
    ((("China", "CN") : String × String) ∈ sampleDirectory.CountryCodes ∧
        contains (toLower asciiTables "China") (toLower asciiTables "CHIN") = true ∧
        (("CN", ["Asia/Shanghai", "Asia/Urumqi"]) : String × List String)
          ∈ sampleDirectory.CCToZones) ∧
      (["Asia/Shanghai", "Asia/Urumqi"] <:+: FindZone asciiTables sampleDirectory "CHIN" ∧
        ∀ z ∈ ["Asia/Shanghai", "Asia/Urumqi"],
          z ∈ FindZone asciiTables sampleDirectory "CHIN") :=
  ⟨⟨by decide, by decide, by decide⟩,
    findZone_country_name asciiTables sampleDirectory "CHIN" "China" "CN"
      ["Asia/Shanghai", "Asia/Urumqi"] (by decide) (by decide) (by decide)⟩

/-- C10: when a config is stored for the guild and the channel is not active on it (it is
in `DisabledInChannels`, or `NewChannelsDisabled` is set and it is not in
`EnabledInChannels`), `handleMessageCreate` sends nothing, whatever the message text, the
parser and the author's timezone are; and when no config is stored the channel passes the
gate: a guild message whose two parses succeed and whose author has a loadable timezone
gets its annotation, in every channel. -/
theorem handleMessageCreate_gate (w : World) (m : MessageCreate) :
    (∀ conf, w.FindTimezoneGuildConfigG m.GuildID = ConfigLookup.found conf →
        isActive conf m.ChannelID = false →
        (ContainsInt64Slice conf.DisabledInChannels m.ChannelID = true ∨
          (conf.NewChannelsDisabled = true ∧
            ContainsInt64Slice conf.EnabledInChannels m.ChannelID = false)) ∧
        handleMessageCreate w m = none) ∧
      (w.FindTimezoneGuildConfigG m.GuildID = ConfigLookup.noRows →
        ∀ first zone t, m.GuildID ≠ 0 → w.Parse m.Content w.nowFirst = some first →
          GetUserTimezone w m.AuthorID = some zone →
          w.Parse m.Content (w.nowSecond.In zone) = some t →
          handleMessageCreate w m = some (m.ChannelID, annotation w t)) := by
  constructor
  · intro conf hfound hinactive
    have hdis : disabledIn conf m.ChannelID = true := by
      rw [isActive_eq_not_disabledIn] at hinactive
      simpa using hinactive
    refine ⟨?_, ?_⟩
    · simpa [disabledIn] using hdis
    · unfold handleMessageCreate
      by_cases hg : m.GuildID = 0
      · rw [if_pos hg]
      · rw [if_neg hg]
        cases hp : w.Parse m.Content w.nowFirst with
        | none => rfl
        | some first => simp [hfound, hdis]
  · intro hnone first zone t hg hp hz hp2
    unfold handleMessageCreate
    rw [if_neg hg]
    simp [hp, hnone, hz, hp2]

/-- Instance of `handleMessageCreate_gate`: in the sample world with a stored config in
default-disabled mode, a message in channel 4 (not enabled) is not annotated; with no
stored config the same message is annotated. -/
theorem handleMessageCreate_gate_witness :
    handleMessageCreate (sampleWorld (ConfigLookup.found ⟨7, true, [], [9]⟩))
        ⟨7, 4, 11, "see you at 3pm"⟩ = none ∧
      handleMessageCreate (sampleWorld ConfigLookup.noRows) ⟨7, 4, 11, "see you at 3pm"⟩
        = some (4, annotation (sampleWorld ConfigLookup.noRows) ⟨1, ⟨"Europe/Oslo"⟩⟩) :=
  ⟨((handleMessageCreate_gate (sampleWorld (ConfigLookup.found ⟨7, true, [], [9]⟩))
        ⟨7, 4, 11, "see you at 3pm"⟩).1 ⟨7, true, [], [9]⟩ rfl (by decide)).2,
    (handleMessageCreate_gate (sampleWorld ConfigLookup.noRows)
        ⟨7, 4, 11, "see you at 3pm"⟩).2 rfl ⟨0, ⟨"UTC"⟩⟩ ⟨"Europe/Oslo"⟩
        ⟨1, ⟨"Europe/Oslo"⟩⟩ (by decide) rfl rfl rfl⟩

/-- C11: when the author has no stored `UserTimezone` record, or the stored zone name
does not load, `GetUserTimezone` gives nothing and `handleMessageCreate` sends no
annotation, for every message (also one whose first parse succeeds) and whatever the guild
config lookup answers. -/
theorem handleMessageCreate_no_timezone (w : World) (m : MessageCreate)
    (h : w.FindUserTimezoneG m.AuthorID = none ∨
      ∃ zoneName, w.FindUserTimezoneG m.AuthorID = some zoneName ∧
        w.LoadLocation zoneName = none) :
    GetUserTimezone w m.AuthorID = none ∧ handleMessageCreate w m = none := by
  have hz : GetUserTimezone w m.AuthorID = none := by
    unfold GetUserTimezone
    rcases h with h | ⟨zoneName, h1, h2⟩
    · rw [h]
    · rw [h1]
      simp only [h2]
  refine ⟨hz, ?_⟩
  unfold handleMessageCreate
  split
  · rfl
  · split
    · rfl
    · simp only [hz]
      split <;> rfl

/-- Instance of `handleMessageCreate_no_timezone`: the sample world without any stored
user timezone, a guild without config and a message that parses. -/
theorem handleMessageCreate_no_timezone_witness :
    ({ sampleWorld ConfigLookup.noRows with FindUserTimezoneG := fun _ => none } : World).Parse
        "see you at 3pm" ⟨0, ⟨"UTC"⟩⟩ = some ⟨0, ⟨"UTC"⟩⟩ ∧
      handleMessageCreate
        { sampleWorld ConfigLookup.noRows with FindUserTimezoneG := fun _ => none }
        ⟨7, 4, 11, "see you at 3pm"⟩ = none :=
  ⟨rfl, (handleMessageCreate_no_timezone
    { sampleWorld ConfigLookup.noRows with FindUserTimezoneG := fun _ => none }
    ⟨7, 4, 11, "see you at 3pm"⟩ (Or.inl rfl)).2⟩

/-! ## Zone resolution: blank queries, order, letter case -/

/-- C12: for every directory the empty query matches everything: `FindZone ""` is the
concatenation of the zone lists of all codes, in the order the directory is visited;
whatever the Unicode case tables are. -/
theorem findZone_empty_query (T : CaseTables) (dir : Directory) :
    FindZone T dir "" = dir.CCToZones.flatMap Prod.snd ∧
      ∀ code zones z, (code, zones) ∈ dir.CCToZones → z ∈ zones → z ∈ FindZone T dir "" := by
  refine ⟨FindZone_empty T dir, ?_⟩
  intro code zones z h1 h2
  rw [FindZone_empty, List.mem_flatMap]
  exact ⟨(code, zones), h1, h2⟩

/-- C14 as stated fails, whatever the case tables do outside ASCII: in the sample directory
the argument `kolkata` resolves to the single loadable zone `Asia/Kolkata`, but when the
upsert answers with an error the command returns that error and no reply naming the
zone. -/
theorem settimezone_reply_counterexample :
    ¬ ∃ T : CaseTables, AsciiFaithful T ∧
      ∀ (w : CommandWorld) (dir : Directory) (arg : String) (gs cs author : Int)
        (z : String) (loc : Location),
        FindZone T dir arg = [z] → w.LoadLocation z = some loc →
        (settimezone T w dir arg gs cs author).upsert = some ⟨author, z⟩ ∧
          (settimezone T w dir arg gs cs author).reply
            = some (setReply z (w.ZoneAbbrev loc)) := by
  rintro ⟨T, hT, h⟩
  have hz : FindZone T sampleDirectory "kolkata" = ["Asia/Kolkata"] := by
    rw [FindZone_sample T hT "kolkata" (by decide)]
    decide
  have h1 := h (sampleCommandWorld ConfigLookup.noRows (some "storage failure"))
    sampleDirectory "kolkata" 7 4 11 "Asia/Kolkata" ⟨"Asia/Kolkata"⟩ hz (by decide)
  have h2 : (settimezone T (sampleCommandWorld ConfigLookup.noRows (some "storage failure"))
      sampleDirectory "kolkata" 7 4 11).reply = none := by
    simp only [settimezone, hz]
    decide
  rw [h2] at h1
  exact absurd h1.2 (by decide)

/-- C14, amended: the command hands a record to `UpsertG` if and only if `FindZone` of its
argument returns exactly one zone id and that zone id loads; the record is (author id, that
zone id); the reply names that zone id when the upsert succeeds, and when it fails the
command returns the error without a reply. With zero matches it replies with the guidance
message, with 2 to 10 matches with the inline listing, with more than 10 it creates the
paginated listing over the matches with `ceil(n/10)` pages, and in none of these three
cases is anything handed to `UpsertG`; whatever the Unicode case tables are. -/
theorem settimezone_outcomes (T : CaseTables) (w : CommandWorld) (dir : Directory)
    (arg : String) (gs cs author : Int) :
    (((settimezone T w dir arg gs cs author).upsert ≠ none) ↔
        ∃ z, FindZone T dir arg = [z] ∧ w.LoadLocation z ≠ none) ∧
      (∀ z loc, FindZone T dir arg = [z] → w.LoadLocation z = some loc →
        (settimezone T w dir arg gs cs author).upsert = some ⟨author, z⟩ ∧
        (w.UpsertG ⟨author, z⟩ = none →
          (settimezone T w dir arg gs cs author).reply = some (setReply z (w.ZoneAbbrev loc)) ∧
          (settimezone T w dir arg gs cs author).err = none) ∧
        (∀ e, w.UpsertG ⟨author, z⟩ = some e →
          (settimezone T w dir arg gs cs author).reply = none ∧
          (settimezone T w dir arg gs cs author).err = some e)) ∧
      (FindZone T dir arg = [] →
        settimezone T w dir arg gs cs author = ⟨none, none, some guidanceReply, none⟩) ∧
      (2 ≤ (FindZone T dir arg).length → (FindZone T dir arg).length ≤ 10 →
        settimezone T w dir arg gs cs author
          = ⟨none, none, some (inlineListing w (FindZone T dir arg)), none⟩) ∧
      (10 < (FindZone T dir arg).length →
        (settimezone T w dir arg gs cs author).upsert = none ∧
        (settimezone T w dir arg gs cs author).reply = none ∧
        (settimezone T w dir arg gs cs author).paginated
          = some ⟨gs, cs, 1, (((FindZone T dir arg).length + 9) / 10 : Nat), FindZone T dir arg⟩) := by
  unfold settimezone
  generalize FindZone T dir arg = zones
  match zones with
  | [] => simp
  | [z] =>
    refine ⟨?_, ?_, ?_, ?_, ?_⟩
    · cases hl : w.LoadLocation z with
      | none => simp [hl]
      | some loc => cases hu : w.UpsertG ⟨author, z⟩ <;> simp [hl, hu]
    · intro z' loc hz hl
      have hz' : z = z' := by simpa using hz
      subst hz'
      cases hu : w.UpsertG ⟨author, z⟩ <;> simp [hl, hu]
    · simp
    · simp
    · simp
  | z₁ :: z₂ :: rest =>
    refine ⟨?_, ?_, ?_, ?_, ?_⟩
    · by_cases h10 : 10 < (z₁ :: z₂ :: rest).length
      · simp only [List.length_cons] at h10
        simp [h10]
      · simp only [List.length_cons] at h10
        simp [h10]
    · intro z loc hz
      simp at hz
    · simp
    · intro _ h10
      have h10' : ¬ 10 < (z₁ :: z₂ :: rest).length := by omega
      simp only [List.length_cons] at h10'
      simp [h10']
    · intro h10
      simp only [List.length_cons] at h10
      simp [h10]

/-- Instance of `settimezone_outcomes` with the ASCII tables: the argument `kolkata` in the sample directory,
with a store that accepts the upsert. -/
theorem settimezone_outcomes_witness :
    (FindZone asciiTables sampleDirectory "kolkata" = ["Asia/Kolkata"] ∧
        (sampleCommandWorld ConfigLookup.noRows none).LoadLocation "Asia/Kolkata"
          = some ⟨"Asia/Kolkata"⟩ ∧
        (sampleCommandWorld ConfigLookup.noRows none).UpsertG ⟨11, "Asia/Kolkata"⟩ = none) ∧
      (settimezone asciiTables (sampleCommandWorld ConfigLookup.noRows none) sampleDirectory "kolkata"
          7 4 11).upsert = some ⟨11, "Asia/Kolkata"⟩ ∧
      (settimezone asciiTables (sampleCommandWorld ConfigLookup.noRows none) sampleDirectory "kolkata"
          7 4 11).reply = some (setReply "Asia/Kolkata" "CET") :=
  ⟨⟨by decide, by decide, rfl⟩,
    ((settimezone_outcomes asciiTables (sampleCommandWorld ConfigLookup.noRows none) sampleDirectory
        "kolkata" 7 4 11).2.1 "Asia/Kolkata" ⟨"Asia/Kolkata"⟩ (by decide) (by decide)).1,
    (((settimezone_outcomes asciiTables (sampleCommandWorld ConfigLookup.noRows none) sampleDirectory
        "kolkata" 7 4 11).2.1 "Asia/Kolkata" ⟨"Asia/Kolkata"⟩ (by decide) (by decide)).2.1
        rfl).1⟩

/-- C15: the toggle command chooses the write from the lookup. With no stored config it
toggles the fresh config and issues an insert of the result, which for the argument `all`
is the record with `NewChannelsDisabled` set and both lists empty (the reply being the
"Disabled ..." text when the insert succeeds). With a stored config it never issues an
insert, and it issues an update of the toggled record whenever the toggle completes, which
it does for the argument `all` and for any stored config whose `EnabledInChannels` is
duplicate-free. When the lookup fails otherwise it returns the lookup error and issues no
write. -/
theorem toggleTimeConversion_write (w : CommandWorld) (allStr : String) (gs cs : Int) :
    (w.FindTimezoneGuildConfigG gs = ConfigLookup.noRows →
      ∃ conf' resp r, toggle (isAll allStr) cs (freshConfig gs) = some (conf', resp) ∧
        ToggleTimeConversion w allStr gs cs = some r ∧
        r.write = some (ConfigWrite.insert conf') ∧
        (w.InsertG conf' = none → r.reply = some resp ∧ r.err = none) ∧
        (isAll allStr = true →
          conf' = ⟨gs, true, [], []⟩ ∧ resp = disabledAllReply)) ∧
      (∀ conf, w.FindTimezoneGuildConfigG gs = ConfigLookup.found conf →
        (∀ r, ToggleTimeConversion w allStr gs cs = some r →
          ∃ conf' resp, toggle (isAll allStr) cs conf = some (conf', resp) ∧
            r.write = some (ConfigWrite.update conf')) ∧
        (isAll allStr = true ∨ conf.EnabledInChannels.Nodup →
          ∃ r, ToggleTimeConversion w allStr gs cs = some r)) ∧
      (w.FindTimezoneGuildConfigG gs = ConfigLookup.failed →
        ToggleTimeConversion w allStr gs cs
          = some ⟨none, none, some ToggleError.lookup⟩) := by
  refine ⟨?_, ?_, ?_⟩
  · intro hl
    have hex : ListsExclusive (freshConfig gs) := by simp [ListsExclusive, freshConfig]
    obtain ⟨conf', resp, ht, _⟩ := listsExclusive_toggle (isAll allStr) cs (freshConfig gs) hex
    have hall : isAll allStr = true → conf' = ⟨gs, true, [], []⟩ ∧ resp = disabledAllReply := by
      intro ha
      rw [ha, toggle_all] at ht
      simp only [freshConfig, Bool.false_eq_true, if_false, Option.some.injEq,
        Prod.mk.injEq] at ht
      exact ⟨ht.1.symm, ht.2.symm⟩
    cases hi : w.InsertG conf' with
    | none =>
      refine ⟨conf', resp, ⟨some (ConfigWrite.insert conf'), some resp, none⟩, ht, ?_, rfl,
        fun _ => ⟨rfl, rfl⟩, hall⟩
      simp [ToggleTimeConversion, hl, ht, hi]
    | some e =>
      refine ⟨conf', resp,
        ⟨some (ConfigWrite.insert conf'), none, some (ToggleError.write e)⟩, ht, ?_, rfl,
        fun h => ?_, hall⟩
      · simp [ToggleTimeConversion, hl, ht, hi]
      · rw [hi] at h
        cases h
  · intro conf hl
    constructor
    · intro r hr
      cases ht : toggle (isAll allStr) cs conf with
      | none => simp [ToggleTimeConversion, hl, ht] at hr
      | some res =>
        obtain ⟨conf', resp⟩ := res
        refine ⟨conf', resp, rfl, ?_⟩
        cases hu : w.UpdateG conf' with
        | none =>
          simp [ToggleTimeConversion, hl, ht, hu] at hr
          rw [← hr]
        | some e =>
          simp [ToggleTimeConversion, hl, ht, hu] at hr
          rw [← hr]
    · intro hok
      have ht : ∃ conf' resp, toggle (isAll allStr) cs conf = some (conf', resp) := by
        cases ha : isAll allStr with
        | true =>
          rw [toggle_all]
          cases conf.NewChannelsDisabled <;> exact ⟨_, _, rfl⟩
        | false =>
          have hnd : conf.EnabledInChannels.Nodup := by
            rcases hok with h | h
            · rw [ha] at h
              cases h
            · exact h
          by_cases hmem : cs ∈ conf.DisabledInChannels
          · exact ⟨_, _, toggle_found cs conf hmem⟩
          · exact ⟨_, _, toggle_notFound cs conf hmem hnd⟩
      obtain ⟨conf', resp, ht⟩ := ht
      cases hu : w.UpdateG conf' with
      | none => exact ⟨_, by simp only [ToggleTimeConversion, hl, ht, hu]; rfl⟩
      | some e => exact ⟨_, by simp only [ToggleTimeConversion, hl, ht, hu]; rfl⟩
  · intro hl
    simp [ToggleTimeConversion, hl]

/-- Instance of `toggleTimeConversion_write`: the argument `all` on a guild without stored
config, with a store that accepts the insert. -/
theorem toggleTimeConversion_write_witness :
    (sampleCommandWorld ConfigLookup.noRows none).FindTimezoneGuildConfigG 7
        = ConfigLookup.noRows ∧
      ∃ conf' resp r, toggle (isAll "all") 4 (freshConfig 7) = some (conf', resp) ∧
        ToggleTimeConversion (sampleCommandWorld ConfigLookup.noRows none) "all" 7 4 = some r ∧
        r.write = some (ConfigWrite.insert conf') ∧
        ((sampleCommandWorld ConfigLookup.noRows none).InsertG conf' = none →
          r.reply = some resp ∧ r.err = none) ∧
        (isAll "all" = true → conf' = ⟨7, true, [], []⟩ ∧ resp = disabledAllReply) :=
  ⟨rfl, (toggleTimeConversion_write (sampleCommandWorld ConfigLookup.noRows none) "all" 7 4).1
    rfl⟩

/-- C16, evaluated at an input where it fails: of twelve zones the first does not load.
Page 1 skips it and lists the next ten (indices 1 to 10), page 2 starts at index 10 and
lists indices 10 and 11, so the zone at index 10 (`Z/k`) is on both of the two pages. -/
theorem paginatedTimezones_overlap :
    (sampleCommandWorld ConfigLookup.noRows none).LoadLocation "Bad/Zone" = none ∧
      twelveZones[10]? = some "Z/k" ∧
      (twelveZones.length + 9) / 10 = 2 ∧
      paginatedTimezones (sampleCommandWorld ConfigLookup.noRows none) twelveZones 1 =
        some ("Please redo the command with one of the following:\n"
          ++ "`Z/b`: CET\n`Z/c`: CET\n`Z/d`: CET\n`Z/e`: CET\n`Z/f`: CET\n"
          ++ "`Z/g`: CET\n`Z/h`: CET\n`Z/i`: CET\n`Z/j`: CET\n`Z/k`: CET\n") ∧
      paginatedTimezones (sampleCommandWorld ConfigLookup.noRows none) twelveZones 2 =
        some ("Please redo the command with one of the following:\n"
          ++ "`Z/k`: CET\n`Z/l`: CET\n") := by
  decide

/-! ## Order of the result, safety and frame of the per-channel toggle, letter case -/

/-- C17: for every query `FindZone` is an order-preserving subsequence of the concatenation
of all zone lists in directory order; hence no zone occurs in it more often than the
directory lists it, and it has no duplicates whenever the directory has none; whatever the
Unicode case tables are. -/
theorem findZone_sublist_directory (T : CaseTables) (dir : Directory) (Q : String) :
    (FindZone T dir Q).Sublist (dir.CCToZones.flatMap Prod.snd) ∧
      (∀ z, (FindZone T dir Q).count z ≤ (dir.CCToZones.flatMap Prod.snd).count z) ∧
      ((dir.CCToZones.flatMap Prod.snd).Nodup → (FindZone T dir Q).Nodup) := by
  have h := FindZone_sublist T dir Q
  exact ⟨h, fun z => h.count_le z, fun hnd => hnd.sublist h⟩

/-- Instance of `findZone_sublist_directory` with the ASCII tables: the sample directory
lists no zone twice, so the result for the query `a` has no duplicates. -/
theorem findZone_sublist_directory_witness :
    (sampleDirectory.CCToZones.flatMap Prod.snd).Nodup ∧
      (FindZone asciiTables sampleDirectory "a").Nodup :=
  ⟨by decide, (findZone_sublist_directory asciiTables sampleDirectory "a").2.2 (by decide)⟩

/-- C18: when both channel lists are duplicate-free the per-channel toggle completes: the
removal at the index found in `DisabledInChannels` is in range, the removal loop over
`EnabledInChannels` finishes without an out-of-range slice, and the toggle returns a
result. (With channel 1 twice in `EnabledInChannels`, the toggle of channel 1 fails at the
second removal.) -/
theorem toggleChannel_in_range (allStr : String) (cs : Int) (conf : TimezoneGuildConfig)
    (hall : isAll allStr = false)
    (hD : conf.DisabledInChannels.Nodup) (hE : conf.EnabledInChannels.Nodup) :
    (∀ i, findDisabled cs conf.DisabledInChannels 0 = some i →
        removeAt conf.DisabledInChannels conf.DisabledInChannels.length i ≠ none) ∧
      removeEnabled cs conf.EnabledInChannels ≠ none ∧
      toggleWith allStr cs conf ≠ none ∧
      toggleWith "" 1 ⟨7, true, [], [1, 1]⟩ = none := by
  have _ := hD
  refine ⟨?_, ?_, ?_, by decide⟩
  · intro i hi
    obtain ⟨_, h2, _⟩ := findDisabled_some cs _ 0 i hi
    simp only [Nat.sub_zero] at h2
    obtain ⟨arr, ha, _⟩ := removeAt_full conf.DisabledInChannels i h2
    rw [ha]
    exact Option.some_ne_none _
  · rw [removeEnabled_nodup cs _ hE]
    exact Option.some_ne_none _
  · rw [toggleWith_channel allStr cs conf hall]
    by_cases hmem : cs ∈ conf.DisabledInChannels
    · rw [toggle_found cs conf hmem]
      exact Option.some_ne_none _
    · rw [toggle_notFound cs conf hmem hE]
      exact Option.some_ne_none _

/-- Instance of `toggleChannel_in_range`: channel 4 toggled in default-disabled mode with
channel 4 listed as enabled. -/
theorem toggleChannel_in_range_witness :
    (isAll "" = false ∧ [5].Nodup ∧ [9, 4, 6].Nodup) ∧
      removeEnabled 4 [9, 4, 6] ≠ none ∧ toggleWith "" 4 ⟨7, true, [5], [9, 4, 6]⟩ ≠ none :=
  ⟨⟨by decide, by decide, by decide⟩,
    (toggleChannel_in_range "" 4 ⟨7, true, [5], [9, 4, 6]⟩
      (by decide) (by decide) (by decide)).2.1,
    (toggleChannel_in_range "" 4 ⟨7, true, [5], [9, 4, 6]⟩
      (by decide) (by decide) (by decide)).2.2.1⟩

/-- C19: on a config with duplicate-free lists the per-channel toggle of channel `cs`
succeeds and leaves every other channel `d` as it was: `NewChannelsDisabled` is unchanged,
`d` is in `DisabledInChannels` after the toggle iff it was before, likewise for
`EnabledInChannels`, and `isActive d` is unchanged. -/
theorem toggleChannel_frame (allStr : String) (cs d : Int) (conf : TimezoneGuildConfig)
    (hall : isAll allStr = false)
    (hD : conf.DisabledInChannels.Nodup) (hE : conf.EnabledInChannels.Nodup)
    (hne : d ≠ cs) :
    ∃ conf' resp, toggleWith allStr cs conf = some (conf', resp) ∧
      conf'.NewChannelsDisabled = conf.NewChannelsDisabled ∧
      (d ∈ conf'.DisabledInChannels ↔ d ∈ conf.DisabledInChannels) ∧
      (d ∈ conf'.EnabledInChannels ↔ d ∈ conf.EnabledInChannels) ∧
      isActive conf' d = isActive conf d := by
  have _ := hD
  have key : ∀ conf' : TimezoneGuildConfig,
      conf'.NewChannelsDisabled = conf.NewChannelsDisabled →
      (d ∈ conf'.DisabledInChannels ↔ d ∈ conf.DisabledInChannels) →
      (d ∈ conf'.EnabledInChannels ↔ d ∈ conf.EnabledInChannels) →
      isActive conf' d = isActive conf d := by
    intro conf' h1 h2 h3
    rw [Bool.eq_iff_iff, isActive_iff, isActive_iff, h1, h2, h3]
  rw [toggleWith_channel allStr cs conf hall]
  by_cases hmem : cs ∈ conf.DisabledInChannels
  · have h2 : d ∈ conf.DisabledInChannels.erase cs ↔ d ∈ conf.DisabledInChannels :=
      List.mem_erase_of_ne hne
    have h3 : d ∈ (if conf.NewChannelsDisabled = true then conf.EnabledInChannels ++ [cs]
        else conf.EnabledInChannels) ↔ d ∈ conf.EnabledInChannels := by
      split
      · simp [hne]
      · exact Iff.rfl
    exact ⟨_, _, toggle_found cs conf hmem, rfl, h2, h3, key _ rfl h2 h3⟩
  · have h2 : d ∈ conf.DisabledInChannels ++ [cs] ↔ d ∈ conf.DisabledInChannels := by
      simp [hne]
    have h3 : d ∈ conf.EnabledInChannels.erase cs ↔ d ∈ conf.EnabledInChannels :=
      List.mem_erase_of_ne hne
    exact ⟨_, _, toggle_notFound cs conf hmem hE, rfl, h2, h3, key _ rfl h2 h3⟩

/-- Instance of `toggleChannel_frame`: channel 4 is toggled, channel 9 is looked at. -/
theorem toggleChannel_frame_witness :
    (isAll "" = false ∧ [5].Nodup ∧ [9, 4].Nodup ∧ (9 : Int) ≠ 4) ∧
      ∃ conf' resp, toggleWith "" 4 ⟨7, true, [5], [9, 4]⟩ = some (conf', resp) ∧
        conf'.NewChannelsDisabled = true ∧
        ((9 : Int) ∈ conf'.DisabledInChannels ↔ (9 : Int) ∈ [5]) ∧
        ((9 : Int) ∈ conf'.EnabledInChannels ↔ (9 : Int) ∈ [9, 4]) ∧
        isActive conf' 9 = isActive ⟨7, true, [5], [9, 4]⟩ 9 :=
  ⟨⟨by decide, by decide, by decide, by decide⟩,
    toggleChannel_frame "" 4 9 ⟨7, true, [5], [9, 4]⟩
      (by decide) (by decide) (by decide) (by decide)⟩

/-- C20 as stated fails, whatever the case tables do outside ASCII: each call ranges over
the maps in an order of its own, and when the call for `A` visits the sample directory as
written and the call for its lower-cased form visits it in the opposite order, the two
results are different sequences (the zones of India first in one, last in the other). -/
theorem findZone_case_insensitive_counterexample :
    ¬ ∃ T : CaseTables, AsciiFaithful T ∧
      ∀ (dir dir' : Directory) (Q : String), SameMaps dir dir' →
        FindZone T dir Q = FindZone T dir' (toLower T Q) := by
  rintro ⟨T, hT, h⟩
  have hl : toLower T "A" = "a" := by
    rw [toLower_of_ascii T hT "A" (by decide)]
    decide
  have h1 := h sampleDirectory sampleDirectoryReversed "A" sameMaps_sampleReversed
  rw [hl, FindZone_sample T hT "A" (by decide),
    FindZone_sampleReversed T hT "a" (by decide)] at h1
  have h2 : FindZone asciiTables sampleDirectory "A" =
      ["Asia/Kolkata", "Asia/Shanghai", "Asia/Urumqi", "America/New_York",
        "America/Chicago"] := by decide
  have h3 : FindZone asciiTables sampleDirectoryReversed "a" =
      ["America/New_York", "America/Chicago", "Asia/Shanghai", "Asia/Urumqi",
        "Asia/Kolkata"] := by decide
  rw [h2, h3] at h1
  exact absurd h1 (by decide)

/-- C20, amended: `FindZone` reads its query only through its lower-cased form. Two queries
with the same lower-cased form return, over the same two maps, the same zone ids with the
same multiplicities (one result is a permutation of the other), and the same sequence when
both calls visit the maps in the same order. When lower-casing twice is the same as
lower-casing once, this holds for a query and its lower-cased form. -/
theorem findZone_case_insensitive (T : CaseTables) (dir dir' : Directory) (Q : String)
    (hmaps : SameMaps dir dir') :
    (∀ Q', toLower T Q' = toLower T Q →
        (FindZone T dir Q).Perm (FindZone T dir' Q') ∧
        FindZone T dir Q = FindZone T dir Q') ∧
      ((∀ c, T.lower (T.lower c) = T.lower c) →
        (FindZone T dir Q).Perm (FindZone T dir' (toLower T Q)) ∧
        FindZone T dir Q = FindZone T dir (toLower T Q)) := by
  constructor
  · intro Q' hq
    exact ⟨FindZone_perm T dir dir' Q Q' hmaps hq.symm,
      FindZone_of_lower_eq T dir Q Q' hq.symm⟩
  · intro hidem
    have hq : toLower T Q = toLower T (toLower T Q) := by
      simp [toLower, Function.comp_def, hidem]
    exact ⟨FindZone_perm T dir dir' Q (toLower T Q) hmaps hq,
      FindZone_of_lower_eq T dir Q (toLower T Q) hq⟩

/-- Instance of `findZone_case_insensitive` with the ASCII tables: the queries `china` and
`CHINA`, the sample directory visited in its two orders. -/
theorem findZone_case_insensitive_witness :
    (SameMaps sampleDirectory sampleDirectoryReversed ∧
        toLower asciiTables "CHINA" = toLower asciiTables "china" ∧
        ∀ c, asciiTables.lower (asciiTables.lower c) = asciiTables.lower c) ∧
      (FindZone asciiTables sampleDirectory "china").Perm
        (FindZone asciiTables sampleDirectoryReversed "CHINA") ∧
      FindZone asciiTables sampleDirectory "china"
        = FindZone asciiTables sampleDirectory (toLower asciiTables "china") :=
  ⟨⟨sameMaps_sampleReversed, by decide, char_toLower_toLower⟩,
    ((findZone_case_insensitive asciiTables sampleDirectory sampleDirectoryReversed "china"
      sameMaps_sampleReversed).1 "CHINA" (by decide)).1,
    ((findZone_case_insensitive asciiTables sampleDirectory sampleDirectoryReversed "china"
      sameMaps_sampleReversed).2 char_toLower_toLower).2⟩

end Timezonecompanion
